import Mathlib

/-!
# Verification of the aiom4b job orchestration and artifact pipeline

Shallow embedding of the aiom4b repository (src/aiom4b): the job state
store (job_service.py), the conversion pipeline (converter.py, api.py),
the tagging pipeline (tagging_service.py) and the naming and backup
utilities (utils.py).  Machine floats of the source are modelled as
rationals; timestamps as a day/second pair; the filesystem and the
external catalog as explicit lists passed to the functions that read
them.
-/

namespace Aiom4b

/-- models.JobStatus: enum {queued, running, completed, failed}. -/
inductive JobStatus where
  | queued
  | running
  | completed
  | failed
deriving DecidableEq, Repr

/-- models.JobType: enum {conversion, tagging}. -/
inductive JobType where
  | conversion
  | tagging
deriving DecidableEq, Repr

/-- A UTC timestamp, modelled as a day index plus seconds within the day
(datetime values only ever enter the claims through the order relation
and the midnight/day arithmetic of clear_old_jobs). -/
structure DateTime where
  day : Int
  sec : Rat
deriving DecidableEq, Repr

/-- datetime comparison a < b (lexicographic on day, then seconds). -/
def DateTime.lt (a b : DateTime) : Bool :=
  decide (a.day < b.day) || (a.day == b.day && decide (a.sec < b.sec))

def dt0 : DateTime := ⟨0, 0⟩

/-- models.JobDB: the persisted job record.  job_service.update_job and
converter.convert_folders read and write a progress attribute on the
record, so the embedded record carries it. -/
structure Job where
  id : Nat
  job_type : JobType
  status : JobStatus
  input_folders : String
  output_file : Option String
  backup_paths : Option String
  progress : Rat
  start_time : Option DateTime
  end_time : Option DateTime
  log : Option String
  created_at : DateTime
  updated_at : DateTime
deriving DecidableEq, Repr

/-- models.JobUpdate: a partial update; a field equal to none is absent
from the update.  converter.convert_folders constructs updates carrying
a progress field and job_service.update_job applies it, so the embedded
update carries it. -/
structure JobUpdate where
  status : Option JobStatus := none
  output_file : Option String := none
  backup_paths : Option String := none
  progress : Option Rat := none
  start_time : Option DateTime := none
  end_time : Option DateTime := none
  log : Option String := none
deriving DecidableEq, Repr

/-- Helper for the field-if-provided pattern of JobService.update_job. -/
def overwrite (new old : Option α) : Option α :=
  match new with
  | some v => some v
  | none => old

/-- JobService.update_job applied to a job that was found: every field
present in the update is written, updated_at is bumped to the current
time. -/
def updateJob (j : Job) (u : JobUpdate) (now : DateTime) : Job :=
  { j with
    status := u.status.getD j.status
    output_file := overwrite u.output_file j.output_file
    backup_paths := overwrite u.backup_paths j.backup_paths
    progress := u.progress.getD j.progress
    start_time := overwrite u.start_time j.start_time
    end_time := overwrite u.end_time j.end_time
    log := overwrite u.log j.log
    updated_at := now }

/-- Apply a sequence of updates in order (all bumps stamped with dt0;
the stamp value is irrelevant to every claim). -/
def applyUpdates (j : Job) (us : List JobUpdate) : Job :=
  us.foldl (fun a u => updateJob a u dt0) j

/-- The sequence of store states observed while a list of updates is
applied: the initial state followed by the state after each update. -/
def jobStates (j : Job) : List JobUpdate → List Job
  | [] => [j]
  | u :: us => j :: jobStates (updateJob j u dt0) us

theorem applyUpdates_nil (j : Job) : applyUpdates j [] = j := rfl

theorem applyUpdates_cons (j : Job) (u : JobUpdate) (us : List JobUpdate) :
    applyUpdates j (u :: us) = applyUpdates (updateJob j u dt0) us := rfl

theorem applyUpdates_append (j : Job) (us vs : List JobUpdate) :
    applyUpdates j (us ++ vs) = applyUpdates (applyUpdates j us) vs := by
  induction us generalizing j with
  | nil => rfl
  | cons u us ih => simp [applyUpdates_cons, ih]

theorem jobStates_cons (j : Job) (u : JobUpdate) (us : List JobUpdate) :
    jobStates j (u :: us) = j :: jobStates (updateJob j u dt0) us := rfl

/-! ## Conversion pipeline: the sequence of job-store updates

converter.MP3ToM4BConverter.convert_folders and
api._run_conversion_task are embedded as the sequences of
JobService.update_job calls they perform.  Branches on external events
(encoder exit code) are parameters; the progress values written by the
concurrently running estimator are a parameter list. -/

/-- The JobUpdate built at the start of api._run_conversion_task:
status RUNNING, start_time stamped. -/
def apiRunningUpdate : JobUpdate :=
  { status := some .running, start_time := some dt0 }

/-- The JobUpdate at the start of converter.convert_folders:
status RUNNING, start_time, progress 0. -/
def convRunningUpdate : JobUpdate :=
  { status := some .running, start_time := some dt0, progress := some 0 }

/-- convert_folders stores the json-encoded backup paths on the job. -/
def backupPathsUpdate (bp : String) : JobUpdate :=
  { backup_paths := some bp }

/-- A progress-only update, as written by _track_ffmpeg_progress and by
the unconditional progress-100 write after the encoder exits. -/
def progressUpdate (p : Rat) : JobUpdate :=
  { progress := some p }

/-- The completion update of convert_folders: status COMPLETED,
end_time, progress 100, output_file. -/
def completedUpdate (outPath : String) : JobUpdate :=
  { status := some .completed, end_time := some dt0, progress := some 100,
    output_file := some outPath }

/-- A failure update: status FAILED, end_time, log message
(written by the except branches of convert_folders and of
_run_conversion_task; neither carries a progress field). -/
def failedUpdate (msg : String) : JobUpdate :=
  { status := some .failed, end_time := some dt0, log := some msg }

/-- The updates performed by convert_folders once the encoder child has
been spawned and has exited: the estimator writes (cancelled at exit),
the unconditional progress-100 write of _convert_with_ffmpeg_progress,
then, depending on the exit code, either the move/register/COMPLETED
tail or the except-branch FAILED update (a non-zero exit raises
RuntimeError which convert_folders catches and re-raises). -/
def convertFoldersUpdates (tracker : List Rat) (encoderOk : Bool)
    (outPath errMsg : String) : List JobUpdate :=
  [convRunningUpdate, backupPathsUpdate "[]"]
    ++ tracker.map progressUpdate
    ++ [progressUpdate 100]
    ++ (if encoderOk then [completedUpdate outPath] else [failedUpdate errMsg])

/-- api._run_conversion_task: RUNNING first, then the convert_folders
updates.  convert_folders is annotated -> None and has no return
statement, so the local variable job of the handler is always None;
the success branch then evaluates job.backup_paths, which raises
AttributeError, so the except branch runs and writes FAILED even when
the conversion succeeded.  When the conversion failed, convert_folders
re-raises and the same except branch runs. -/
def runConversionTaskUpdates (tracker : List Rat) (encoderOk : Bool)
    (outPath errMsg : String) : List JobUpdate :=
  apiRunningUpdate :: convertFoldersUpdates tracker encoderOk outPath errMsg
    ++ [failedUpdate (if encoderOk
        then "AttributeError: NoneType object has no attribute backup_paths"
        else errMsg)]

/-- The job record as created by JobService.create_job: QUEUED. -/
def initialJob : Job :=
  { id := 0, job_type := .conversion, status := .queued
    input_folders := "[\x22source/book\x22]", output_file := none
    backup_paths := none, progress := 0, start_time := none
    end_time := none, log := none, created_at := dt0, updated_at := dt0 }

/-! ## Progress estimator (converter._track_ffmpeg_progress) -/

/-- The piecewise elapsed-time progress curve of _track_ffmpeg_progress:
time progress is elapsed over (12 seconds per file), capped at 9/10,
then mapped through the three-segment curve. -/
def progressAt (totalFiles : Nat) (elapsed : Rat) : Rat :=
  let estimatedTotalTime : Rat := totalFiles * 12
  let timeProgress : Rat := min (9/10) (elapsed / estimatedTotalTime)
  if timeProgress < 1/10 then timeProgress * 20
  else if timeProgress < 1/2 then 2 + (timeProgress - 1/10) * (115/2)
  else 25 + (timeProgress - 1/2) * (325/2)

/-- The progress values actually written to the store by the estimator
loop: one sample of elapsed time per iteration; a value is written only
when it advances the last written value by at least 2, and the last
written value is then updated. -/
def trackerWrites (totalFiles : Nat) (last : Rat) : List Rat → List Rat
  | [] => []
  | e :: es =>
      let p := progressAt totalFiles e
      if 2 ≤ p - last then p :: trackerWrites totalFiles p es
      else trackerWrites totalFiles last es

/-- The curve never exceeds 90 (the cap min 9/10 on time progress maps
to exactly 90 at the top of the third segment). -/
theorem progressAt_le_90 (totalFiles : Nat) (elapsed : Rat) :
    progressAt totalFiles elapsed ≤ 90 := by
  unfold progressAt
  set tp : Rat := min (9/10) (elapsed / ((totalFiles : Rat) * 12)) with htp
  have h1 : tp ≤ 9/10 := min_le_left _ _
  by_cases hc1 : tp < 1/10
  · simp only [hc1, if_true]
    nlinarith
  · by_cases hc2 : tp < 1/2
    · simp only [hc1, hc2, if_false, if_true]
      nlinarith
    · simp only [hc1, hc2, if_false]
      nlinarith

/-- Every value emitted by the estimator exceeds the incoming last
written value by at least 2. -/
theorem trackerWrites_ge (totalFiles : Nat) (last : Rat)
    (es : List Rat) :
    ∀ p ∈ trackerWrites totalFiles last es, last + 2 ≤ p := by
  induction es generalizing last with
  | nil => intro p hp; simp [trackerWrites] at hp
  | cons e es ih =>
      intro p hp
      unfold trackerWrites at hp
      by_cases hw : 2 ≤ progressAt totalFiles e - last
      · simp only [hw, if_true, List.mem_cons] at hp
        rcases hp with rfl | hp
        · linarith
        · have := ih (progressAt totalFiles e) p hp
          linarith
      · simp only [hw, if_false] at hp
        exact ih last p hp

/-- The value sequence written by the estimator is monotone (in fact
each write strictly exceeds the previous by at least 2). -/
theorem trackerWrites_chain (totalFiles : Nat) (last : Rat)
    (es : List Rat) :
    (trackerWrites totalFiles last es).Chain' (· ≤ ·) := by
  induction es generalizing last with
  | nil => simp [trackerWrites]
  | cons e es ih =>
      unfold trackerWrites
      by_cases hw : 2 ≤ progressAt totalFiles e - last
      · simp only [hw, if_true]
        refine List.chain'_cons'.mpr ⟨?_, ih _⟩
        intro q hq
        have hmem : q ∈ trackerWrites totalFiles (progressAt totalFiles e) es :=
          List.mem_of_mem_head? hq
        have := trackerWrites_ge totalFiles (progressAt totalFiles e) es q hmem
        linarith
      · simp only [hw, if_false]
        exact ih last

/-- Every value written by the estimator is at most 90. -/
theorem trackerWrites_le_90 (totalFiles : Nat) (last : Rat)
    (es : List Rat) :
    ∀ p ∈ trackerWrites totalFiles last es, p ≤ 90 := by
  induction es generalizing last with
  | nil => intro p hp; simp [trackerWrites] at hp
  | cons e es ih =>
      intro p hp
      unfold trackerWrites at hp
      by_cases hw : 2 ≤ progressAt totalFiles e - last
      · simp only [hw, if_true, List.mem_cons] at hp
        rcases hp with rfl | hp
        · exact progressAt_le_90 totalFiles e
        · exact ih (progressAt totalFiles e) p hp
      · simp only [hw, if_false] at hp
        exact ih last p hp

@[simp] theorem updateJob_status (j : Job) (u : JobUpdate) (now : DateTime) :
    (updateJob j u now).status = u.status.getD j.status := rfl

@[simp] theorem updateJob_progress (j : Job) (u : JobUpdate) (now : DateTime) :
    (updateJob j u now).progress = u.progress.getD j.progress := rfl

/-- Helper: in the portion of the conversion trace that follows the
encoder spawn (estimator writes, the forced progress-100 write, the
COMPLETED or FAILED tail, the handler's final FAILED write), every
observed state with status COMPLETED has progress exactly 100, provided
the state entering this portion is RUNNING. -/
theorem convTail_completed_progress (ok : Bool) (out err m : String) :
    ∀ (tracker : List Rat) (j : Job), j.status = .running →
    ∀ s ∈ jobStates j (tracker.map progressUpdate
        ++ ([progressUpdate 100]
          ++ ((if ok then [completedUpdate out] else [failedUpdate err])
            ++ [failedUpdate m]))),
      s.status = .completed → s.progress = 100 := by
  intro tracker
  induction tracker with
  | nil =>
      intro j hj s hs hcomp
      cases ok <;>
      · simp only [List.map_nil, List.nil_append, if_true, if_false,
          Bool.false_eq_true, jobStates, List.cons_append, List.nil_append,
          List.mem_cons, List.mem_singleton, List.not_mem_nil, or_false] at hs
        rcases hs with rfl | rfl | rfl | rfl <;>
          simp_all [updateJob, progressUpdate, completedUpdate, failedUpdate,
            overwrite]
  | cons e tracker ih =>
      intro j hj s hs hcomp
      simp only [List.map_cons, List.cons_append, jobStates, List.mem_cons] at hs
      rcases hs with rfl | hs
      · rw [hj] at hcomp; cases hcomp
      · exact ih (updateJob j (progressUpdate e) dt0)
          (by simp [progressUpdate, hj]) s hs hcomp

set_option linter.unusedVariables false in
/-- C5: while a Job is RUNNING the progress values written by the
conversion progress estimator are monotonically non-decreasing (each
write advances the previous by at least 2) and never exceed 90 before
the encoder process exits; and along the conversion trace every store
state in status COMPLETED has progress exactly 100. -/
theorem progress_estimator_spec (totalFiles : Nat) (samples : List Rat)
    (encoderOk : Bool) (outPath errMsg : String) (h : 1 ≤ totalFiles) :
    (trackerWrites totalFiles 0 samples).Chain' (· ≤ ·) ∧
    (∀ p ∈ trackerWrites totalFiles 0 samples, p ≤ 90) ∧
    (∀ s ∈ jobStates initialJob
        (runConversionTaskUpdates (trackerWrites totalFiles 0 samples)
          encoderOk outPath errMsg),
      s.status = .completed → s.progress = 100) := by
  refine ⟨trackerWrites_chain totalFiles 0 samples,
    trackerWrites_le_90 totalFiles 0 samples, ?_⟩
  intro s hs hcomp
  have hshape : runConversionTaskUpdates (trackerWrites totalFiles 0 samples)
      encoderOk outPath errMsg
      = apiRunningUpdate :: convRunningUpdate :: backupPathsUpdate "[]" ::
        ((trackerWrites totalFiles 0 samples).map progressUpdate
          ++ ([progressUpdate 100]
            ++ ((if encoderOk then [completedUpdate outPath]
                  else [failedUpdate errMsg])
              ++ [failedUpdate (if encoderOk
                  then "AttributeError: NoneType object has no attribute backup_paths"
                  else errMsg)]))) := by
    simp [runConversionTaskUpdates, convertFoldersUpdates]
  rw [hshape] at hs
  simp only [jobStates, List.mem_cons] at hs
  rcases hs with rfl | rfl | rfl | hs
  · rw [show initialJob.status = .queued from rfl] at hcomp; cases hcomp
  · rw [show (updateJob initialJob apiRunningUpdate dt0).status = .running
      from rfl] at hcomp
    cases hcomp
  · rw [show (updateJob (updateJob initialJob apiRunningUpdate dt0)
        convRunningUpdate dt0).status = .running from rfl] at hcomp
    cases hcomp
  · exact convTail_completed_progress encoderOk outPath errMsg _
      (trackerWrites totalFiles 0 samples) _ rfl s hs hcomp

/-- Witness for progress_estimator_spec at a concrete input. -/
theorem progress_estimator_spec_witness :
    (trackerWrites 1 0 [0, 6, 13]).Chain' (· ≤ ·) ∧
    (∀ p ∈ trackerWrites 1 0 [0, 6, 13], p ≤ 90) ∧
    (∀ s ∈ jobStates initialJob
        (runConversionTaskUpdates (trackerWrites 1 0 [0, 6, 13])
          true "out.m4b" "err"),
      s.status = .completed → s.progress = 100) :=
  progress_estimator_spec 1 [0, 6, 13] true "out.m4b" "err" (by decide)

/-- C1 (code bug): on a successful conversion the store passes through
COMPLETED and is then moved to FAILED by the very next update: the
api handler dereferences the None returned by convert_folders, and the
resulting AttributeError lands in its except branch, which overwrites
the terminal COMPLETED status with FAILED. -/
theorem conversion_success_completed_then_failed :
    (applyUpdates initialJob
      ((runConversionTaskUpdates [] true "out.m4b" "").dropLast)).status
        = .completed ∧
    (applyUpdates initialJob
      (runConversionTaskUpdates [] true "out.m4b" "")).status = .failed := by
  constructor <;> rfl

/-- C10: when the encoder exits non-zero, the pipeline writes
progress 100 before inspecting the exit code, so the job ends FAILED
with progress exactly 100, whatever the estimator wrote before. -/
theorem encoder_failure_ends_failed_with_progress_100
    (tracker : List Rat) (outPath errMsg : String) :
    (applyUpdates initialJob
      (runConversionTaskUpdates tracker false outPath errMsg)).status
        = .failed ∧
    (applyUpdates initialJob
      (runConversionTaskUpdates tracker false outPath errMsg)).progress
        = 100 := by
  have hshape : runConversionTaskUpdates tracker false outPath errMsg
      = ([apiRunningUpdate, convRunningUpdate, backupPathsUpdate "[]"]
          ++ tracker.map progressUpdate)
        ++ [progressUpdate 100, failedUpdate errMsg, failedUpdate errMsg] := by
    simp [runConversionTaskUpdates, convertFoldersUpdates]
  rw [hshape, applyUpdates_append]
  constructor <;> rfl

/-! ## Stable sorting (model of python sorted and list.sort)

Python sorts are stable and compare with the strict order of the key;
insertion sort below places a new element before every element whose
key is not strictly smaller, which reproduces that stability. -/

section StableSort

variable {α β : Type} [LinearOrder β] (key : α → β)

/-- Insert x before the first element whose key is not strictly below
the key of x (stable insertion). -/
def insertByKey (x : α) : List α → List α
  | [] => [x]
  | y :: ys => if key y < key x then y :: insertByKey x ys else x :: y :: ys

/-- Stable insertion sort by a key, the model of python sorted(list)
and list.sort(key=...). -/
def sortByKey : List α → List α
  | [] => []
  | x :: xs => insertByKey key x (sortByKey xs)

theorem insertByKey_perm (x : α) (l : List α) :
    List.Perm (insertByKey key x l) (x :: l) := by
  induction l with
  | nil => simp [insertByKey]
  | cons y ys ih =>
      unfold insertByKey
      by_cases hlt : key y < key x
      · simp only [hlt, if_true]
        exact (ih.cons y).trans (List.Perm.swap x y ys)
      · simp [hlt]

theorem sortByKey_perm (l : List α) : List.Perm (sortByKey key l) l := by
  induction l with
  | nil => simp [sortByKey]
  | cons x xs ih =>
      exact (insertByKey_perm key x (sortByKey key xs)).trans (ih.cons x)

theorem insertByKey_pairwise (x : α) (l : List α)
    (hl : l.Pairwise (fun a b => key a ≤ key b)) :
    (insertByKey key x l).Pairwise (fun a b => key a ≤ key b) := by
  induction l with
  | nil => simp [insertByKey]
  | cons y ys ih =>
      rcases List.pairwise_cons.mp hl with ⟨hy, hys⟩
      unfold insertByKey
      by_cases hlt : key y < key x
      · simp only [hlt, if_true]
        refine List.pairwise_cons.mpr ⟨?_, ih hys⟩
        intro z hz
        have hz' : z ∈ x :: ys := (insertByKey_perm key x ys).mem_iff.mp hz
        rcases List.mem_cons.mp hz' with rfl | hz''
        · exact le_of_lt hlt
        · exact hy z hz''
      · simp only [hlt, if_false]
        refine List.pairwise_cons.mpr ⟨?_, hl⟩
        intro z hz
        rcases List.mem_cons.mp hz with rfl | hz'
        · exact le_of_not_lt hlt
        · exact le_trans (le_of_not_lt hlt) (hy z hz')

theorem sortByKey_pairwise (l : List α) :
    (sortByKey key l).Pairwise (fun a b => key a ≤ key b) := by
  induction l with
  | nil => simp [sortByKey]
  | cons x xs ih => exact insertByKey_pairwise key x _ ih

/-- A list already sorted by the key is left unchanged (stability at
the level of whole runs, used for the per-folder concatenation
scenario). -/
theorem sortByKey_eq_self (l : List α)
    (hl : l.Pairwise (fun a b => key a ≤ key b)) :
    sortByKey key l = l := by
  induction l with
  | nil => rfl
  | cons x xs ih =>
      rcases List.pairwise_cons.mp hl with ⟨hx, hxs⟩
      have htail : sortByKey key xs = xs := ih hxs
      unfold sortByKey
      rw [htail]
      cases xs with
      | nil => rfl
      | cons y ys =>
          unfold insertByKey
          have : ¬ key y < key x := not_lt_of_le (hx y (by simp))
          simp [this]

end StableSort

/-! ## File discovery and conversion ordering (utils.get_mp3_files,
converter.convert_folders lines 66 to 76)

A source file is modelled by the input folder the recursive rglob scan
started from, the intermediate subdirectory components under it (the
scan is recursive, so a file may sit arbitrarily deep), and its base
name; the filesystem is the explicit list of files the scan would
reach.  Path objects sort by their part tuple, modelled as the
lexicographic order on the component list. -/

structure SrcFile where
  folder : String
  subdirs : List String
  name : String
deriving DecidableEq, Repr

/-- The comparison key of a full path: the tuple of path parts (the
input folder component, the intermediate subdirectory components, the
name component), as a list of character lists ordered lexicographically
just as pathlib orders Path objects by their part tuples.  Within one
get_mp3_files call every file shares the folder head, so keeping the
input folder as a single component preserves the relative order pathlib
would give. -/
def pathKey (f : SrcFile) : List (List Char) :=
  f.folder.data :: (f.subdirs.map String.data ++ [f.name.data])

/-- The comparison key used by the global sort of convert_folders:
the base name only (sort(key=lambda x: x.name)). -/
def nameKey (f : SrcFile) : List Char := f.name.data

/-- Split a character list on a separator character (model of the
string split used to isolate the path suffix). -/
def splitOnChar (sep : Char) : List Char → List (List Char)
  | [] => [[]]
  | c :: rest =>
      let r := splitOnChar sep rest
      if c == sep then [] :: r
      else
        match r with
        | [] => [[c]]
        | h :: t => (c :: h) :: t

/-- utils.py suffix check: a file participates when its lower-cased
path suffix (the extension after the final dot) is in
SUPPORTED_AUDIO_FORMATS = [".mp3"]. -/
def isEligible (name : String) : Bool :=
  match splitOnChar '.' name.data with
  | [] => false
  | [_] => false
  | ps => ('.' :: (ps.getLastD []).map Char.toLower) == ".mp3".data

/-- utils.get_mp3_files: the eligible files anywhere under one folder
(the rglob scan is recursive, so files in nested subdirectories are
included), sorted by full path. -/
def get_mp3_files (fs : List SrcFile) (folder : String) : List SrcFile :=
  sortByKey pathKey (fs.filter (fun f => f.folder == folder && isEligible f.name))

/-- converter.convert_folders lines 66 to 76: collect the per-folder
lists, concatenate, then re-sort the whole collection by base name
(all_mp3_files.sort(key=lambda x: x.name)); this global list is the
chapter order handed to the encoder. -/
def collectAllMp3Files (fs : List SrcFile) (folders : List String) : List SrcFile :=
  sortByKey nameKey ((folders.map (get_mp3_files fs)).flatten)

theorem mem_get_mp3_files_folder (fs : List SrcFile) (folder : String)
    (f : SrcFile) (hf : f ∈ get_mp3_files fs folder) : f.folder = folder := by
  have hmem : f ∈ fs.filter (fun g => g.folder == folder && isEligible g.name) :=
    (sortByKey_perm pathKey _).mem_iff.mp hf
  have := (List.mem_filter.mp hmem).2
  simp only [Bool.and_eq_true, beq_iff_eq] at this
  exact this.1

/-- Within one folder with NO nested subdirectories, the full-path
sorting of get_mp3_files sorts by base name (every element shares the
folder head and has no intermediate components, so the lexicographic
path key reduces to the name).  With nested subdirectories this fails
of the program, because the intermediate directory components dominate
the comparison; the flatness hypothesis is therefore essential. -/
theorem get_mp3_files_name_pairwise_of_flat (fs : List SrcFile) (folder : String)
    (hflat : ∀ f ∈ get_mp3_files fs folder, f.subdirs = []) :
    (get_mp3_files fs folder).Pairwise (fun a b => nameKey a ≤ nameKey b) := by
  have hp' : (get_mp3_files fs folder).Pairwise
      (fun a b => pathKey a ≤ pathKey b) :=
    sortByKey_pairwise pathKey
      (fs.filter (fun f => f.folder == folder && isEligible f.name))
  refine List.Pairwise.imp_of_mem ?_ hp'
  intro a b ha hb hab
  have hfa : a.folder = folder := mem_get_mp3_files_folder fs folder a ha
  have hfb : b.folder = folder := mem_get_mp3_files_folder fs folder b hb
  have hsa : a.subdirs = [] := hflat a ha
  have hsb : b.subdirs = [] := hflat b hb
  by_contra hnle
  have hba : nameKey b < nameKey a := lt_of_not_le hnle
  have hlex : List.Lex (· < ·) (pathKey b) (pathKey a) := by
    simp only [pathKey, hfa, hfb, hsa, hsb, List.map_nil, List.nil_append]
    exact List.Lex.cons (List.Lex.rel hba)
  exact absurd hab (not_le_of_lt hlex)

/-- C2 counterexample data: two flat folders A and B, two eligible
files each, with base names interleaving between the folders. -/
def fsInterleaved : List SrcFile :=
  [⟨"A", [], "02.mp3"⟩, ⟨"A", [], "04.mp3"⟩,
   ⟨"B", [], "01.mp3"⟩, ⟨"B", [], "03.mp3"⟩]

/-- Further counterexample data: folder A holds its two files in nested
subdirectories d1 and d2, folder B is flat. -/
def fsNested : List SrcFile :=
  [⟨"A", ["d1"], "02.mp3"⟩, ⟨"A", ["d2"], "01.mp3"⟩, ⟨"B", [], "03.mp3"⟩]

/-- C2 counterexample: the chapter order is NOT the lexicographic
per-folder concatenation.  First, with flat folders the global re-sort
by base name interleaves A and B.  Second, with nested subdirectories
even a single folder's path-sorted listing (d1/02 before d2/01) is
reordered by the global base-name sort, so the order differs from the
concatenation although every base name of A precedes every base name
of B. -/
theorem conversion_order_not_folder_concat :
    collectAllMp3Files fsInterleaved ["A", "B"]
      ≠ get_mp3_files fsInterleaved "A" ++ get_mp3_files fsInterleaved "B"
    ∧ collectAllMp3Files fsInterleaved ["A", "B"]
      = [⟨"B", [], "01.mp3"⟩, ⟨"A", [], "02.mp3"⟩,
         ⟨"B", [], "03.mp3"⟩, ⟨"A", [], "04.mp3"⟩]
    ∧ get_mp3_files fsNested "A"
      = [⟨"A", ["d1"], "02.mp3"⟩, ⟨"A", ["d2"], "01.mp3"⟩]
    ∧ collectAllMp3Files fsNested ["A", "B"]
      = [⟨"A", ["d2"], "01.mp3"⟩, ⟨"A", ["d1"], "02.mp3"⟩, ⟨"B", [], "03.mp3"⟩]
    ∧ collectAllMp3Files fsNested ["A", "B"]
      ≠ get_mp3_files fsNested "A" ++ get_mp3_files fsNested "B" := by
  refine ⟨by decide, by decide, by decide, by decide, by decide⟩

/-- C2 amended: the conversion pipeline orders chapters by stably
sorting the flattened eligible-file set by base name: the result is a
permutation of the concatenated per-folder path-sorted listings and is
sorted by base name; for two folders [A, B] it equals A's listing
followed by B's listing when both folders are flat (no nested
subdirectories) and every base name in A is at most every base name
in B.  Base names interleaving across folders interleave in the chapter
order, and nested subdirectories can reorder even a single folder's
listing (see the counterexample). -/
theorem conversion_chapter_order (fs : List SrcFile) (folders : List String)
    (A B : String)
    (hflatA : ∀ f ∈ get_mp3_files fs A, f.subdirs = [])
    (hflatB : ∀ f ∈ get_mp3_files fs B, f.subdirs = [])
    (hsep : ∀ a ∈ get_mp3_files fs A, ∀ b ∈ get_mp3_files fs B,
      nameKey a ≤ nameKey b) :
    List.Perm (collectAllMp3Files fs folders)
      ((folders.map (get_mp3_files fs)).flatten) ∧
    (collectAllMp3Files fs folders).Pairwise
      (fun a b => nameKey a ≤ nameKey b) ∧
    collectAllMp3Files fs [A, B]
      = get_mp3_files fs A ++ get_mp3_files fs B := by
  refine ⟨sortByKey_perm nameKey _, sortByKey_pairwise nameKey _, ?_⟩
  show sortByKey nameKey ([get_mp3_files fs A, get_mp3_files fs B].flatten) = _
  have hflat : ([get_mp3_files fs A, get_mp3_files fs B] :
      List (List SrcFile)).flatten = get_mp3_files fs A ++ get_mp3_files fs B := by
    simp
  rw [hflat]
  apply sortByKey_eq_self nameKey
  rw [List.pairwise_append]
  exact ⟨get_mp3_files_name_pairwise_of_flat fs A hflatA,
    get_mp3_files_name_pairwise_of_flat fs B hflatB, hsep⟩

/-- Witness for conversion_chapter_order: two flat folders A and B
whose base names are separated, so the order is A then B. -/
def fsSeparated : List SrcFile :=
  [⟨"A", [], "01.mp3"⟩, ⟨"A", [], "02.mp3"⟩,
   ⟨"B", [], "03.mp3"⟩, ⟨"B", [], "04.mp3"⟩]

theorem conversion_chapter_order_witness :
    List.Perm (collectAllMp3Files fsSeparated ["A", "B"])
      ((["A", "B"].map (get_mp3_files fsSeparated)).flatten) ∧
    (collectAllMp3Files fsSeparated ["A", "B"]).Pairwise
      (fun a b => nameKey a ≤ nameKey b) ∧
    collectAllMp3Files fsSeparated ["A", "B"]
      = get_mp3_files fsSeparated "A" ++ get_mp3_files fsSeparated "B" :=
  conversion_chapter_order fsSeparated ["A", "B"] "A" "B"
    (by decide) (by decide) (by decide)

/-! ## Output naming (utils.sanitize_filename,
utils.generate_output_filename_from_folders) -/

/-- The characters of the invalid_chars string of sanitize_filename. -/
def isInvalidChar (c : Char) : Bool :=
  c == '<' || c == '>' || c == ':' || c == '"' || c == '/' || c == '\\' ||
  c == '|' || c == '?' || c == '*'

/-- Regex class backslash-w (ASCII range: letters, digits, underscore;
the embedding restricts to ASCII names). -/
def isWordChar (c : Char) : Bool := c.isAlphanum || c == '_'

/-- Regex class backslash-s. -/
def isSpaceChar (c : Char) : Bool := c.isWhitespace

/-- The class kept by the second substitution of sanitize_filename
(word characters, whitespace, dash, underscore, dot); anything else is
replaced with an underscore. -/
def isKeptChar (c : Char) : Bool :=
  isWordChar c || isSpaceChar c || c == '-' || c == '_' || c == '.'

/-- Third substitution of sanitize_filename: every maximal run of
underscores and whitespace collapses to one underscore.  The flag says
whether the previous character belonged to such a run. -/
def collapseRuns : Bool → List Char → List Char
  | _, [] => []
  | inRun, c :: rest =>
      if c == '_' || isSpaceChar c then
        if inRun then collapseRuns true rest
        else '_' :: collapseRuns true rest
      else c :: collapseRuns false rest

/-- Characters removed from both edges by strip of sanitize_filename
(underscore and space). -/
def isStripChar (c : Char) : Bool := c == '_' || c == ' '

/-- python str.strip applied with the underscore-space set. -/
def stripEdges (l : List Char) : List Char :=
  ((l.dropWhile isStripChar).reverse.dropWhile isStripChar).reverse

/-- utils.sanitize_filename: replace the invalid characters, replace
everything outside the kept class, collapse underscore/whitespace runs,
strip the edges, fall back to the fixed name when empty. -/
def sanitize_filename (s : String) : String :=
  let step1 := s.data.map (fun c => if isInvalidChar c then '_' else c)
  let step2 := step1.map (fun c => if isKeptChar c then c else '_')
  let step3 := collapseRuns false step2
  let step4 := stripEdges step3
  if step4 = [] then "converted" else ⟨step4⟩

/-- pathlib Path(p).name: the last nonempty slash-separated component
(empty when there is none). -/
def pathName (p : String) : String :=
  match (splitOnChar '/' p.data).filter (fun part => !part.isEmpty) with
  | [] => ""
  | ps => ⟨ps.getLastD []⟩

/-- utils.generate_output_filename_from_folders. -/
def generate_output_filename_from_folders (source_folders : List String) : String :=
  match source_folders with
  | [] => "converted"
  | [p] =>
      let folder_name := pathName p
      if folder_name = "" || folder_name = "/" || folder_name = "\\"
          || !(folder_name.data.isSuffixOf p.data)
          || folder_name.data.length < 2 then
        "converted"
      else
        let sanitized := sanitize_filename folder_name
        if sanitized ≠ "converted" then sanitized else "converted"
  | ps =>
      let folder_names := (ps.map (fun f => sanitize_filename (pathName f))).filter
        (fun s => s != "converted")
      if folder_names = [] then "converted"
      else sanitize_filename ⟨List.intercalate "_and_".data (folder_names.map String.data)⟩

theorem sanitize_filename_ne_empty (s : String) : sanitize_filename s ≠ "" := by
  unfold sanitize_filename
  by_cases h : stripEdges (collapseRuns false
      ((s.data.map (fun c => if isInvalidChar c then '_' else c)).map
        (fun c => if isKeptChar c then c else '_'))) = []
  · simp only [h, if_pos rfl]
    decide
  · simp only [h, if_neg h]
    intro hcontra
    exact h (congrArg String.data hcontra)

/-- C6: deriveOutputName is deterministic and never empty; a single
meaningful folder yields its sanitized basename, multiple folders yield
the sanitized basenames joined with the fixed separator, and empty or
degenerate input yields the fixed fallback name. -/
theorem deriveOutputName_spec (folders : List String) :
    generate_output_filename_from_folders folders ≠ "" ∧
    generate_output_filename_from_folders folders
      = generate_output_filename_from_folders folders ∧
    generate_output_filename_from_folders [] = "converted" ∧
    generate_output_filename_from_folders ["/audio/My Book"] = "My_Book" ∧
    generate_output_filename_from_folders ["/a/Book One", "/b/Book Two"]
      = "Book_One_and_Book_Two" ∧
    generate_output_filename_from_folders ["/"] = "converted" := by
  refine ⟨?_, rfl, by decide, by decide, by decide, by decide⟩
  unfold generate_output_filename_from_folders
  match folders with
  | [] => decide
  | [p] =>
      simp only
      split
      · decide
      · split
        · exact sanitize_filename_ne_empty _
        · decide
  | p :: q :: ps =>
      simp only
      split
      · decide
      · exact sanitize_filename_ne_empty _

/-! ## Retention sweep (JobService.clear_old_jobs) -/

/-- A terminal job status (COMPLETED or FAILED). -/
def terminalStatus (s : JobStatus) : Bool := s == .completed || s == .failed

/-- The selection predicate of clear_old_jobs: terminal status and
created_at strictly before the cutoff (midnight of the current day
minus days_old days). -/
def sweepSelect (now : DateTime) (days_old : Int) (j : Job) : Bool :=
  terminalStatus j.status && DateTime.lt j.created_at ⟨now.day - days_old, 0⟩

/-- JobService.clear_old_jobs: delete every selected record, return how
many were deleted together with the remaining store. -/
def clear_old_jobs (store : List Job) (now : DateTime) (days_old : Int) :
    Nat × List Job :=
  let old_jobs := store.filter (sweepSelect now days_old)
  (old_jobs.length, store.filter (fun j => !(sweepSelect now days_old j)))

/-- The two jobs of the retention scenario: a COMPLETED job aged 40
days and a RUNNING job aged 90 days. -/
def jobCompleted40 : Job :=
  { initialJob with id := 1, status := .completed, created_at := ⟨-40, 0⟩ }

def jobRunning90 : Job :=
  { initialJob with id := 2, status := .running, created_at := ⟨-90, 0⟩ }

/-- C7: sweepOlderThan deletes exactly the terminal jobs older than the
cutoff, never deletes a QUEUED or RUNNING job regardless of age, and
returns the number of deleted records; the 30-day scenario over a
COMPLETED job aged 40 days and a RUNNING job aged 90 days deletes only
the former and returns 1. -/
theorem sweepOlderThan_spec (store : List Job) (now : DateTime) (days : Int) :
    (∀ j, j ∈ (clear_old_jobs store now days).2
      ↔ j ∈ store ∧ sweepSelect now days j = false) ∧
    (∀ j ∈ store, (j.status = .queued ∨ j.status = .running) →
      j ∈ (clear_old_jobs store now days).2) ∧
    (clear_old_jobs store now days).1
      = (store.filter (sweepSelect now days)).length ∧
    clear_old_jobs [jobCompleted40, jobRunning90] ⟨0, 0⟩ 30
      = (1, [jobRunning90]) := by
  refine ⟨?_, ?_, rfl, by decide⟩
  · intro j
    simp [clear_old_jobs, List.mem_filter]
  · intro j hj hstatus
    simp only [clear_old_jobs, List.mem_filter]
    refine ⟨hj, ?_⟩
    have : terminalStatus j.status = false := by
      rcases hstatus with h | h <;> simp [terminalStatus, h]
    simp [sweepSelect, this]

/-! ## Catalog search (TaggingService.search_audible)

The external catalog is modelled by one response per regional endpoint,
in the prioritized order of the locales list: either a failed request
(any exception, caught by the per-locale handler) or a product list
(a response whose json lacks the products key behaves exactly like an
empty product list). -/

/-- python str.strip() on the character list. -/
def stripWs (l : List Char) : List Char :=
  ((l.dropWhile Char.isWhitespace).reverse.dropWhile Char.isWhitespace).reverse

/-- python ", ".join. -/
def joinComma (xs : List String) : String :=
  ⟨List.intercalate ", ".data (xs.map String.data)⟩

/-- The translator keyword list of _process_authors (ASCII lowering;
the embedding restricts case folding to ASCII). -/
def translatorKeywords : List String :=
  ["traducteur", "traductrice", "translator", "traductor", "traductora",
   "übersetzer", "übersetzerin", "traduttore", "traduttrice",
   "翻訳者", "번역가", "переводчик", "переводчица"]

/-- Whether sub occurs as a contiguous substring of hay (python in). -/
def infixOfChars (sub : List Char) : List Char → Bool
  | [] => sub.isEmpty
  | c :: t => sub.isPrefixOf (c :: t) || infixOfChars sub t

/-- keyword.lower() in author_name.lower(), the substring test of
_process_authors. -/
def isTranslatorName (name : String) : Bool :=
  translatorKeywords.any (fun k =>
    infixOfChars (k.data.map Char.toLower) (name.data.map Char.toLower))

/-- TaggingService._process_authors: strip names, drop empties, drop
translator-role contributors, fall back to the unfiltered nonempty
names, join with a comma, fall back to the fixed unknown label. -/
def process_authors (authors_list : List String) : String :=
  if authors_list = [] then "Unknown Author"
  else
    let stripped := authors_list.map (fun n => (⟨stripWs n.data⟩ : String))
    let filtered := stripped.filter (fun n => !n.isEmpty && !(isTranslatorName n))
    let filtered2 := if filtered = [] then stripped.filter (fun n => !n.isEmpty)
      else filtered
    if filtered2 = [] then "Unknown Author" else joinComma filtered2

/-- One product record of a search response, with the field defaults of
the dictionary reads already applied: asin from get(asin, empty),
title from get(title, Unknown Title), author and narrator name lists,
series entries as (title, optional sequence). -/
structure Product where
  asin : String
  title : String
  authors : List String
  narrators : List String
  series : List (String × Option String)
deriving DecidableEq, Repr

/-- models.AudibleSearchResult. -/
structure AudibleSearchResult where
  title : String
  author : String
  narrator : Option String
  series : Option String
  asin : String
  locale : String
deriving DecidableEq, Repr

/-- python truthiness of an optional string (None and the empty string
are falsy). -/
def truthy : Option String → Bool
  | none => false
  | some s => !s.isEmpty

/-- The AudibleSearchResult built from one product inside the search
loop: narrators joined (None when the narrator list is empty), series
label from the first series entry with an optional sequence suffix,
empty label mapped to None. -/
def mkSearchResult (locale : String) (p : Product) : AudibleSearchResult :=
  let narrator : Option String :=
    if p.narrators = [] then none else some (joinComma p.narrators)
  let seriesInfo : String :=
    match p.series with
    | [] => ""
    | (t, seq) :: _ => t ++ (if truthy seq then " #" ++ seq.getD "" else "")
  { title := p.title
    author := process_authors p.authors
    narrator := narrator
    series := if seriesInfo = "" then none else some seriesInfo
    asin := p.asin
    locale := locale }

/-- The inner product loop of search_audible: append a result for each
product whose asin is not already present in the accumulated results. -/
def addProducts (locale : String) : List Product → List AudibleSearchResult →
    List AudibleSearchResult
  | [], acc => acc
  | p :: ps, acc =>
      if acc.any (fun r => r.asin == p.asin) then addProducts locale ps acc
      else addProducts locale ps (acc ++ [mkSearchResult locale p])

/-- One endpoint response: a failed request, or a product list. -/
inductive LocaleResponse where
  | err
  | ok (products : List Product)
deriving DecidableEq, Repr

/-- The locale loop of search_audible: skip failed endpoints, process a
product list, stop at the first endpoint leaving a nonempty result
set. -/
def searchLoop : List (String × LocaleResponse) → List AudibleSearchResult →
    List AudibleSearchResult
  | [], acc => acc
  | (_, .err) :: rest, acc => searchLoop rest acc
  | (loc, .ok ps) :: rest, acc =>
      let acc2 := addProducts loc ps acc
      if acc2.isEmpty then searchLoop rest acc2 else acc2

/-- TaggingService.search_audible: run the locale loop from an empty
result set and cap the answer at 5 entries. -/
def search_audible (responses : List (String × LocaleResponse)) :
    List AudibleSearchResult :=
  (searchLoop responses []).take 5

theorem mkSearchResult_asin (locale : String) (p : Product) :
    (mkSearchResult locale p).asin = p.asin := rfl

/-- The product loop only ever appends, so a nonempty accumulator stays
nonempty. -/
theorem addProducts_ne_nil (locale : String) (ps : List Product)
    (acc : List AudibleSearchResult) (h : acc ≠ []) :
    addProducts locale ps acc ≠ [] := by
  induction ps generalizing acc with
  | nil => exact h
  | cons p ps ih =>
      unfold addProducts
      by_cases hmem : acc.any (fun r => r.asin == p.asin)
      · simp only [hmem, if_true]
        exact ih acc h
      · simp only [hmem, if_false]
        exact ih _ (by simp)

/-- The product loop preserves asin distinctness: a product is appended
only when its asin is absent from the accumulated results. -/
theorem addProducts_pairwise (locale : String) (ps : List Product)
    (acc : List AudibleSearchResult)
    (h : acc.Pairwise (fun a b => a.asin ≠ b.asin)) :
    (addProducts locale ps acc).Pairwise (fun a b => a.asin ≠ b.asin) := by
  induction ps generalizing acc with
  | nil => exact h
  | cons p ps ih =>
      unfold addProducts
      by_cases hmem : acc.any (fun r => r.asin == p.asin)
      · simp only [hmem, if_true]
        exact ih acc h
      · simp only [hmem, if_false]
        refine ih _ ?_
        rw [List.pairwise_append]
        refine ⟨h, by simp, ?_⟩
        intro a ha b hb
        simp only [List.mem_singleton] at hb
        subst hb
        rw [mkSearchResult_asin]
        simp only [List.any_eq_true, not_exists, not_and] at hmem
        intro heq
        exact hmem a ha (by simp [heq])

theorem searchLoop_pairwise (responses : List (String × LocaleResponse))
    (acc : List AudibleSearchResult)
    (h : acc.Pairwise (fun a b => a.asin ≠ b.asin)) :
    (searchLoop responses acc).Pairwise (fun a b => a.asin ≠ b.asin) := by
  induction responses generalizing acc with
  | nil => exact h
  | cons q rest ih =>
      rcases q with ⟨loc, resp⟩
      cases resp with
      | err => exact ih acc h
      | ok ps =>
          show ((if (addProducts loc ps acc).isEmpty then
            searchLoop rest (addProducts loc ps acc)
            else addProducts loc ps acc)).Pairwise _
          by_cases he : (addProducts loc ps acc).isEmpty
          · simp only [he, if_true]
            exact ih _ (addProducts_pairwise loc ps acc h)
          · simp only [he, if_false]
            exact addProducts_pairwise loc ps acc h

/-- A response that contributes nothing to the result set: a failed
request or an empty product list. -/
def fruitlessResponse (q : String × LocaleResponse) : Prop :=
  q.2 = .err ∨ q.2 = .ok []

/-- The locale loop started empty either consumes only fruitless
responses and stays empty, or splits at the first fruitful endpoint,
whose products alone determine the answer. -/
theorem searchLoop_first_endpoint (responses : List (String × LocaleResponse)) :
    ((∀ q ∈ responses, fruitlessResponse q) ∧ searchLoop responses [] = []) ∨
    (∃ pre loc ps rest, responses = pre ++ (loc, .ok ps) :: rest ∧
      (∀ q ∈ pre, fruitlessResponse q) ∧ ps ≠ [] ∧
      searchLoop responses [] = addProducts loc ps []) := by
  induction responses with
  | nil => exact Or.inl ⟨by simp, rfl⟩
  | cons q rest ih =>
      rcases q with ⟨loc, resp⟩
      cases resp with
      | err =>
          have hstep : searchLoop ((loc, .err) :: rest) [] = searchLoop rest [] := rfl
          rcases ih with ⟨hall, hres⟩ | ⟨pre, loc2, ps, rest2, hsplit, hpre, hne, hres⟩
          · exact Or.inl ⟨by
              intro x hx
              rcases List.mem_cons.mp hx with rfl | hx
              · exact Or.inl rfl
              · exact hall x hx, by rw [hstep]; exact hres⟩
          · refine Or.inr ⟨(loc, .err) :: pre, loc2, ps, rest2, by rw [hsplit]; rfl, ?_, hne,
              by rw [hstep]; exact hres⟩
            intro x hx
            rcases List.mem_cons.mp hx with rfl | hx
            · exact Or.inl rfl
            · exact hpre x hx
      | ok ps =>
          cases ps with
          | nil =>
              have hstep : searchLoop ((loc, .ok []) :: rest) [] = searchLoop rest [] := rfl
              rcases ih with ⟨hall, hres⟩ | ⟨pre, loc2, ps2, rest2, hsplit, hpre, hne, hres⟩
              · exact Or.inl ⟨by
                  intro x hx
                  rcases List.mem_cons.mp hx with rfl | hx
                  · exact Or.inr rfl
                  · exact hall x hx, by rw [hstep]; exact hres⟩
              · refine Or.inr ⟨(loc, .ok []) :: pre, loc2, ps2, rest2, by rw [hsplit]; rfl,
                  ?_, hne, by rw [hstep]; exact hres⟩
                intro x hx
                rcases List.mem_cons.mp hx with rfl | hx
                · exact Or.inr rfl
                · exact hpre x hx
          | cons p ps' =>
              refine Or.inr ⟨[], loc, p :: ps', rest, rfl, by simp, by simp, ?_⟩
              have hne : addProducts loc (p :: ps') [] ≠ [] := by
                show addProducts loc ps' [mkSearchResult loc p] ≠ []
                exact addProducts_ne_nil loc ps' _ (by simp)
              show (if (addProducts loc (p :: ps') []).isEmpty then
                searchLoop rest (addProducts loc (p :: ps') [])
                else addProducts loc (p :: ps') []) = _
              simp [List.isEmpty_iff, hne]

/-- C8: the search result is capped at 5, carries pairwise distinct
catalog identifiers, is drawn entirely from the first fruitful endpoint
of the prioritized list, and is the empty list (not an error) when
every endpoint fails or returns nothing. -/
theorem search_spec (responses : List (String × LocaleResponse)) :
    (search_audible responses).length ≤ 5 ∧
    (search_audible responses).Pairwise (fun a b => a.asin ≠ b.asin) ∧
    (((∀ q ∈ responses, fruitlessResponse q) ∧ search_audible responses = []) ∨
      (∃ pre loc ps rest, responses = pre ++ (loc, .ok ps) :: rest ∧
        (∀ q ∈ pre, fruitlessResponse q) ∧ ps ≠ [] ∧
        search_audible responses = (addProducts loc ps []).take 5)) ∧
    search_audible [("com", .err), ("fr", .ok []), ("de", .err)] = [] := by
  refine ⟨List.length_take_le 5 _, ?_, ?_, by decide⟩
  · exact (searchLoop_pairwise responses [] (by simp)).sublist (List.take_sublist 5 _)
  · rcases searchLoop_first_endpoint responses with ⟨hall, hres⟩ | ⟨pre, loc, ps, rest, hsplit, hpre, hne, hres⟩
    · exact Or.inl ⟨hall, by unfold search_audible; rw [hres]; rfl⟩
    · exact Or.inr ⟨pre, loc, ps, rest, hsplit, hpre, hne, by
        unfold search_audible; rw [hres]⟩

/-! ## Backup reclamation (utils.cleanup_backup_files)

The filesystem is the list of existing backup paths; deletable says
whether an rmtree attempt on a path succeeds or raises (the raise is
caught by the per-iteration handler and only logged).  The function is
total: no failure propagates to the caller. -/

/-- utils.cleanup_backup_files: for each requested path, when it exists
attempt a recursive delete; a failure is caught and the loop continues
with the next path. -/
def cleanup_backup_files (paths : List String) (deletable : String → Bool)
    (fs : List String) : List String :=
  match paths with
  | [] => fs
  | p :: rest =>
      if fs.contains p then
        if deletable p then
          cleanup_backup_files rest deletable (fs.filter (fun q => q != p))
        else cleanup_backup_files rest deletable fs
      else cleanup_backup_files rest deletable fs

/-- C9: reclamation attempts every path: the surviving filesystem is
exactly the original minus the requested paths that existed and were
deletable, so a non-existent or undeletable path at one position never
prevents the deletion of the others; concretely, with a missing path in
the middle of the list both existing paths are still removed. -/
theorem reclaim_spec (paths : List String) (deletable : String → Bool)
    (fs : List String) :
    cleanup_backup_files paths deletable fs
      = fs.filter (fun q => !(paths.contains q && deletable q)) ∧
    cleanup_backup_files ["a", "missing", "b"] (fun _ => true) ["a", "b", "c"]
      = ["c"] := by
  refine ⟨?_, by decide⟩
  induction paths generalizing fs with
  | nil => simp [cleanup_backup_files]
  | cons p rest ih =>
      unfold cleanup_backup_files
      by_cases hp : fs.contains p
      · by_cases hdel : deletable p = true
        · simp only [hp, hdel, if_true]
          rw [ih]
          rw [List.filter_filter]
          apply List.filter_congr
          intro q _
          by_cases hq : q = p
          · subst hq
            simp [hdel]
          · simp [hq, bne_iff_ne, Ne, hq]
        · have hdel' : deletable p = false := by
            cases hd : deletable p
            · rfl
            · exact absurd hd hdel
          simp only [hp, hdel', if_true, Bool.false_eq_true, if_false]
          rw [ih]
          apply List.filter_congr
          intro q _
          by_cases hq : q = p
          · subst hq
            simp [hdel]
          · simp [hq]
      · have hp' : fs.contains p = false := by
          cases hc : fs.contains p
          · rfl
          · exact absurd hc hp
        simp only [hp', Bool.false_eq_true, if_false]
        rw [ih]
        apply List.filter_congr
        intro q hq
        have hqp : q ≠ p := by
          intro h
          subst h
          exact hp (by simpa using hq)
        simp [hqp]

/-! ## Metadata application (TaggingService.apply_metadata_to_file,
TaggingService.move_to_library)

External effects are parameters: whether the record and the artifact
exist, whether the cover download succeeds, whether the mutagen tag
write succeeds, and the outcome of the library move.  The sidecar
writes of create_additional_metadata_files touch only the filesystem
and are best-effort (every exception is caught and logged), so they do
not appear in the record-level model. -/

/-- models.AudibleBookDetails, restricted to the fields read by
apply_metadata_to_file and move_to_library (the remaining catalog
fields are never read by these two operations). -/
structure AudibleBookDetails where
  asin : String
  title : String
  author : String
  narrator : Option String
  series : Option String
  series_part : Option String
  description : Option String
  cover_url : Option String
deriving DecidableEq, Repr

/-- models.TaggedFileDB. -/
structure TaggedFile where
  id : Nat
  file_path : String
  asin : Option String
  title : Option String
  author : Option String
  narrator : Option String
  series : Option String
  series_part : Option String
  description : Option String
  cover_url : Option String
  cover_path : Option String
  is_tagged : Bool
deriving DecidableEq, Repr

/-- The outcome of the shutil.move call of move_to_library: success,
a UnicodeEncodeError whose single re-encoded retry succeeds, a
UnicodeEncodeError whose retry also raises, or any other exception. -/
inductive MoveOutcome where
  | ok
  | unicodeErrThenOk
  | unicodeErrThenErr
  | otherErr
deriving DecidableEq, Repr

/-- The local clean_filename of move_to_library: replace the
filesystem-hostile characters, strip spaces and dots from the edges,
fall back to Unknown when empty (the utf-8 encode/decode round trip
with replacement is the identity on well-formed text). -/
def clean_filename (name : String) : String :=
  if name = "" then "Unknown"
  else
    let cleaned := name.data.map (fun c => if isInvalidChar c then '_' else c)
    let stripped := ((cleaned.dropWhile (fun c => c == ' ' || c == '.')).reverse.dropWhile
      (fun c => c == ' ' || c == '.')).reverse
    if stripped = [] then "Unknown" else ⟨stripped⟩

/-- OUTPUT_DIR of config.py. -/
def OUTPUT_DIR : String := "data/output"

/-- The library destination path computed by move_to_library. -/
def libraryDestPath (md : AudibleBookDetails) : String :=
  let author := if md.author = "" then "Unknown Author" else md.author
  let series := md.series.getD ""
  let title := if md.title = "" then "Unknown Title" else md.title
  let author_clean := clean_filename author
  let series_clean := if series = "" then "" else clean_filename series
  let title_clean := clean_filename title
  let series_part := md.series_part.getD ""
  let filename :=
    if series_part ≠ "" ∧ series_clean ≠ "" then
      title_clean ++ " (" ++ series_clean ++ " #" ++ series_part ++ ").m4b"
    else if series_clean ≠ "" then
      title_clean ++ " (" ++ series_clean ++ ").m4b"
    else title_clean ++ ".m4b"
  let dest_dir :=
    if series_clean ≠ "" then
      let folder_name :=
        if series_part ≠ "" then
          title_clean ++ " (" ++ series_clean ++ " #" ++ series_part ++ ")"
        else title_clean ++ " (" ++ series_clean ++ ")"
      OUTPUT_DIR ++ "/library/" ++ author_clean ++ "/" ++ series_clean ++ "/" ++ folder_name
    else OUTPUT_DIR ++ "/library/" ++ author_clean ++ "/" ++ title_clean
  dest_dir ++ "/" ++ filename

/-- TaggingService.move_to_library: compute the destination, move the
artifact; a UnicodeEncodeError is retried once with a re-encoded path;
ANY exception (including a failed move or a failed retry) is caught by
the enclosing handler, which logs it and returns the original path, so
a failed move still returns normally. -/
def move_to_library (file_path : String) (md : AudibleBookDetails)
    (move : MoveOutcome) : String :=
  match move with
  | .ok => libraryDestPath md
  | .unicodeErrThenOk => libraryDestPath md
  | .unicodeErrThenErr => file_path
  | .otherErr => file_path

/-- TaggingService.apply_metadata_to_file: resolve the record, check
the artifact exists, download the cover when a cover url is set (a
failed download degrades to no cover), write the tags (failure aborts
with False), move to the library, then commit the record update
(new path, all bibliographic fields, is_tagged true) as one write and
report True.  found models whether get_tagged_file returned a record;
when it did not, the store is untouched and False is returned. -/
def apply_metadata_to_file (found : Bool) (tf : TaggedFile)
    (fileExists coverOk tagOk : Bool) (md : AudibleBookDetails)
    (move : MoveOutcome) : Bool × TaggedFile :=
  if !found then (false, tf)
  else if !fileExists then (false, tf)
  else
    let cover_path : Option String :=
      if truthy md.cover_url then
        if coverOk then some (OUTPUT_DIR ++ "/covers/" ++ md.asin ++ ".jpg")
        else none
      else none
    if !tagOk then (false, tf)
    else
      let new_path := move_to_library tf.file_path md move
      (true,
        { tf with
          file_path := new_path
          asin := some md.asin
          title := some md.title
          author := some md.author
          narrator := md.narrator
          series := md.series
          series_part := md.series_part
          description := md.description
          cover_url := md.cover_url
          cover_path := cover_path
          is_tagged := true })

/-- Catalog metadata carrying no cover url (get_book_details returns
such records whenever the product has no product_images entry). -/
def mdNoCover : AudibleBookDetails :=
  { asin := "B0TEST", title := "T", author := "A", narrator := some "N",
    series := some "S", series_part := some "1", description := some "D",
    cover_url := none }

/-- A freshly converted, not yet tagged file record. -/
def tfUntagged : TaggedFile :=
  { id := 7, file_path := "data/output/readyToTag/T.m4b", asin := none,
    title := none, author := none, narrator := none, series := none,
    series_part := none, description := none, cover_url := none,
    cover_path := none, is_tagged := false }

/-- C3 counterexample: a fully successful run of applyMetadata with
metadata lacking a cover url commits is_tagged true while cover_path
(and cover_url) remain unset, so is_tagged true does not imply that
every bibliographic field is populated. -/
theorem applyMetadata_tagged_without_cover :
    (apply_metadata_to_file true tfUntagged true true true mdNoCover .ok).1
      = true ∧
    (apply_metadata_to_file true tfUntagged true true true mdNoCover .ok).2.is_tagged
      = true ∧
    (apply_metadata_to_file true tfUntagged true true true mdNoCover .ok).2.cover_path
      = none ∧
    (apply_metadata_to_file true tfUntagged true true true mdNoCover .ok).2.cover_url
      = none := by
  refine ⟨rfl, rfl, rfl, rfl⟩

/-- C3 amended: the record write of applyMetadata is atomic: a failing
execution leaves the record untouched (never a partial write), and a
successful one assigns every bibliographic field from the metadata in
the same single write that sets is_tagged; fields that the metadata
itself leaves unset (such as a missing cover) remain unset even though
is_tagged becomes true. -/
theorem applyMetadata_atomic (found fileExists coverOk tagOk : Bool)
    (tf : TaggedFile) (md : AudibleBookDetails) (move : MoveOutcome) :
    ((apply_metadata_to_file found tf fileExists coverOk tagOk md move).1 = false →
      (apply_metadata_to_file found tf fileExists coverOk tagOk md move).2 = tf) ∧
    ((apply_metadata_to_file found tf fileExists coverOk tagOk md move).1 = true →
      (apply_metadata_to_file found tf fileExists coverOk tagOk md move).2.is_tagged = true ∧
      (apply_metadata_to_file found tf fileExists coverOk tagOk md move).2.asin = some md.asin ∧
      (apply_metadata_to_file found tf fileExists coverOk tagOk md move).2.title = some md.title ∧
      (apply_metadata_to_file found tf fileExists coverOk tagOk md move).2.author = some md.author ∧
      (apply_metadata_to_file found tf fileExists coverOk tagOk md move).2.narrator = md.narrator ∧
      (apply_metadata_to_file found tf fileExists coverOk tagOk md move).2.series = md.series ∧
      (apply_metadata_to_file found tf fileExists coverOk tagOk md move).2.series_part = md.series_part ∧
      (apply_metadata_to_file found tf fileExists coverOk tagOk md move).2.description = md.description ∧
      (apply_metadata_to_file found tf fileExists coverOk tagOk md move).2.cover_url = md.cover_url) ∧
    (tf.is_tagged = false →
      (apply_metadata_to_file found tf fileExists coverOk tagOk md move).2.is_tagged = true →
      (apply_metadata_to_file found tf fileExists coverOk tagOk md move).1 = true) := by
  cases found <;> cases fileExists <;> cases tagOk <;>
    simp [apply_metadata_to_file]

/-- C4 counterexample: when the library move raises (any error other
than the retried text-encoding case), move_to_library swallows the
exception and returns the original path, and applyMetadata reports
SUCCESS with the record still pointing at the unmoved artifact. -/
theorem applyMetadata_success_despite_move_failure :
    (apply_metadata_to_file true tfUntagged true true true mdNoCover .otherErr).1
      = true ∧
    (apply_metadata_to_file true tfUntagged true true true mdNoCover .otherErr).2.file_path
      = tfUntagged.file_path ∧
    (apply_metadata_to_file true tfUntagged true true true mdNoCover .otherErr).2.is_tagged
      = true := by
  refine ⟨rfl, rfl, rfl⟩

/-- C4 amended: a failure of the primary file move is NOT fatal:
move_to_library catches it and returns the original path, and
applyMetadata still reports success with the record keeping the
original (unmoved) path; the single text-encoding retry is the only
recovery that still reaches the library destination. -/
theorem move_failure_swallowed (tf : TaggedFile) (md : AudibleBookDetails)
    (coverOk : Bool) (move : MoveOutcome)
    (hmove : move = .otherErr ∨ move = .unicodeErrThenErr) :
    move_to_library tf.file_path md move = tf.file_path ∧
    (apply_metadata_to_file true tf true coverOk true md move).1 = true ∧
    (apply_metadata_to_file true tf true coverOk true md move).2.file_path
      = tf.file_path ∧
    (apply_metadata_to_file true tf true coverOk true md move).2.is_tagged = true ∧
    move_to_library tf.file_path md .unicodeErrThenOk = libraryDestPath md := by
  rcases hmove with rfl | rfl <;>
    exact ⟨rfl, rfl, rfl, rfl, rfl⟩

/-- Witness for move_failure_swallowed at a concrete input. -/
theorem move_failure_swallowed_witness :
    move_to_library tfUntagged.file_path mdNoCover .unicodeErrThenErr
      = tfUntagged.file_path ∧
    (apply_metadata_to_file true tfUntagged true true true mdNoCover
      .unicodeErrThenErr).1 = true ∧
    (apply_metadata_to_file true tfUntagged true true true mdNoCover
      .unicodeErrThenErr).2.file_path = tfUntagged.file_path ∧
    (apply_metadata_to_file true tfUntagged true true true mdNoCover
      .unicodeErrThenErr).2.is_tagged = true ∧
    move_to_library tfUntagged.file_path mdNoCover .unicodeErrThenOk
      = libraryDestPath mdNoCover :=
  move_failure_swallowed tfUntagged mdNoCover true .unicodeErrThenErr (Or.inr rfl)

end Aiom4b
